import Mathlib

/-!
# Verification of the `.osdev` request-document parser and execution pipeline

A shallow embedding, in Lean, of the core of a VS Code extension for
OpenSearch DevTools: the request-document parser (`src/language/parser.ts`),
the path/query utility, and the query executor / result formatter
(`src/execution/queryExecutor.ts`), together with proofs of the behavioural
properties stated in the natural-language specification.

Strings are modelled as `List Char` (a JS string is a sequence of UTF-16
code units; the inputs of interest are sequences of Unicode scalar values).
JS-specific behaviours are modelled explicitly:

* `\s` of the request-line regex and `String.prototype.trim` use the JS
  whitespace set (`jsWS`);
* JS truthiness of optional strings / JSON values is `optTruthy` / `jsTruthy`;
* `JSON.parse` acceptance is the executable checker `jsonValid` (the JSON
  grammar of ECMA-404, which is what `JSON.parse` accepts);
* `decodeURIComponent` is `decodeURIComponentOpt`, with `none` standing for
  a thrown `URIError`.
-/

namespace OsDev

/-- Shorthand: the character list of a string literal. -/
def str (s : String) : List Char := s.toList

/-- The JS whitespace class: the characters matched by `\s` in a JS regex and
trimmed by `String.prototype.trim` (WhiteSpace ∪ LineTerminator of ECMA-262). -/
def jsWS (c : Char) : Bool :=
  c = ' ' || c = '\t' || c = '\n' || c = '\r' || c = '\x0b' || c = '\x0c' ||
  c.val = 0xa0 || c.val = 0x1680 || (0x2000 ≤ c.val && c.val ≤ 0x200a) ||
  c.val = 0x2028 || c.val = 0x2029 || c.val = 0x202f || c.val = 0x205f ||
  c.val = 0x3000 || c.val = 0xfeff

/-- Drop leading JS whitespace. -/
def trimL (l : List Char) : List Char := l.dropWhile jsWS

/-- Drop trailing JS whitespace. -/
def trimR (l : List Char) : List Char := (l.reverse.dropWhile jsWS).reverse

/-- `String.prototype.trim`: drop leading and trailing JS whitespace. -/
def trim (l : List Char) : List Char := trimR (trimL l)

/-- `string.split(sep)` for a one-character separator: JS semantics
(`"".split` is `[""]`, a trailing separator yields a trailing `""`). -/
def splitOnChar (sep : Char) : List Char → List (List Char)
  | [] => [[]]
  | c :: rest =>
    match splitOnChar sep rest with
    | [] => [[]]
    | s :: ss => if c = sep then [] :: s :: ss else (c :: s) :: ss

/-- `array.join('\n')`. -/
def joinNl : List (List Char) → List Char
  | [] => []
  | [l] => l
  | l :: ls => l ++ '\n' :: joinNl ls

/-! ## The `.osdev` parser (`src/language/parser.ts`) -/

/-- `HTTP_METHODS` from the source: the method tokens of the request-line
regex `^(GET|POST|PUT|DELETE|HEAD|PATCH)\s+(\S+)\s*$/i`. -/
def HTTP_METHODS : List (List Char) :=
  [str "GET", str "POST", str "PUT", str "DELETE", str "HEAD", str "PATCH"]

/-- `string.toUpperCase()` restricted to ASCII, which is exactly how the `i`
flag canonicalises the ASCII method letters. -/
def toUpperList (l : List Char) : List Char := l.map Char.toUpper

/-- `parseRequestLine`: match `line.trim()` against
`^(GET|POST|PUT|DELETE|HEAD|PATCH)\s+(\S+)\s*$/i` and return the uppercased
method together with the literal path token.  On the trimmed line the regex
matches exactly when the line is a method token, one or more `\s`, and a
final run of non-`\s` characters (the trailing `\s*` is empty after `trim`). -/
def parseRequestLine (line : List Char) : Option (List Char × List Char) :=
  let t := trim line
  let tok := t.takeWhile (fun c => !jsWS c)
  let rest := t.dropWhile (fun c => !jsWS c)
  let path := rest.dropWhile jsWS
  if HTTP_METHODS.contains (toUpperList tok) && !path.isEmpty &&
      path.all (fun c => !jsWS c) then
    some (toUpperList tok, path)
  else
    none

/-- `isComment`: `line.trim().startsWith('#')`. -/
def isComment (line : List Char) : Bool :=
  match trim line with
  | c :: _ => c = '#'
  | [] => false

/-- `isBlankLine`: `line.trim() === ''`. -/
def isBlankLine (line : List Char) : Bool := (trim line).isEmpty

/-- `ParsedRequest` (body `none` when the source leaves the field unset). -/
structure ParsedRequest where
  method : List Char
  path : List Char
  body : Option (List Char) := none
  startLine : Nat
  endLine : Nat
deriving DecidableEq, Repr

/-- `ParseError`. -/
structure ParseError where
  message : List Char
  line : Nat
deriving DecidableEq, Repr

/-- `ParseResult`. -/
structure ParseResult where
  requests : List ParsedRequest
  errors : List ParseError
deriving DecidableEq, Repr

/-- The open request of the parser loop (`currentRequest` in the source). -/
structure OpenReq where
  method : List Char
  path : List Char
  startLine : Nat
deriving DecidableEq, Repr

/-! ### `JSON.parse` acceptance

`validateJsonBody` only uses `JSON.parse` for its success/failure bit, so we
model that bit with an executable recogniser for the JSON grammar
(ECMA-404, the exact grammar `JSON.parse` accepts).  Each parser takes the
input after the construct and returns the remaining input, `none` meaning a
syntax error.  The mutual recursion is fuelled; every step spends one unit
of fuel and at most three steps happen per consumed character, so the fuel
chosen in `jsonValid` is never exhausted on accepted inputs. -/

/-- JSON insignificant whitespace (space, tab, line feed, carriage return). -/
def jsonWS (c : Char) : Bool := c = ' ' || c = '\t' || c = '\n' || c = '\r'

/-- Skip JSON whitespace. -/
def skipWs (l : List Char) : List Char := l.dropWhile jsonWS

/-- ASCII decimal digit. -/
def isDigit (c : Char) : Bool := 48 ≤ c.toNat && c.toNat ≤ 57

/-- ASCII hexadecimal digit. -/
def isHex (c : Char) : Bool :=
  isDigit c || (65 ≤ c.toNat && c.toNat ≤ 70) || (97 ≤ c.toNat && c.toNat ≤ 102)

/-- Recognise the remainder of a JSON string after the opening quote. -/
def jsonStringRest : List Char → Option (List Char)
  | [] => none
  | '"' :: r => some r
  | '\\' :: 'u' :: a :: b :: c :: d :: r =>
    if isHex a && isHex b && isHex c && isHex d then jsonStringRest r else none
  | '\\' :: e :: r =>
    if e = '"' || e = '\\' || e = '/' || e = 'b' || e = 'f' || e = 'n' ||
        e = 'r' || e = 't' then jsonStringRest r else none
  | c :: r => if c.toNat < 0x20 then none else jsonStringRest r

/-- Drop a run of decimal digits. -/
def dropDigits (l : List Char) : List Char := l.dropWhile isDigit

/-- Recognise an optional JSON fraction part. -/
def jsonFrac : List Char → Option (List Char)
  | '.' :: r =>
    match r with
    | c :: _ => if isDigit c then some (dropDigits r) else none
    | [] => none
  | l => some l

/-- Recognise an optional JSON exponent part. -/
def jsonExp : List Char → Option (List Char)
  | c :: r =>
    if c = 'e' || c = 'E' then
      let r2 := match r with
        | s :: r2 => if s = '+' || s = '-' then r2 else s :: r2
        | [] => []
      match r2 with
      | d :: _ => if isDigit d then some (dropDigits r2) else none
      | [] => none
    else
      some (c :: r)
  | [] => some []

/-- Recognise a JSON number. -/
def jsonNumber (l : List Char) : Option (List Char) :=
  let l1 := match l with
    | '-' :: r => r
    | _ => l
  match l1 with
  | '0' :: r => jsonFrac r >>= jsonExp
  | c :: r => if isDigit c then jsonFrac (dropDigits r) >>= jsonExp else none
  | [] => none

mutual

/-- Recognise a JSON value (input starts at the value). -/
def jsonValue : Nat → List Char → Option (List Char)
  | 0, _ => none
  | Nat.succ fuel, l =>
    match l with
    | '{' :: r => jsonMembers fuel (skipWs r)
    | '[' :: r => jsonElements fuel (skipWs r)
    | '"' :: r => jsonStringRest r
    | 't' :: 'r' :: 'u' :: 'e' :: r => some r
    | 'f' :: 'a' :: 'l' :: 's' :: 'e' :: r => some r
    | 'n' :: 'u' :: 'l' :: 'l' :: r => some r
    | _ => jsonNumber l

/-- After `{` (whitespace skipped): an empty object or a member list. -/
def jsonMembers : Nat → List Char → Option (List Char)
  | 0, _ => none
  | Nat.succ fuel, l =>
    match l with
    | '}' :: r => some r
    | _ => jsonMemberList fuel l

/-- One or more `string : value` members, separated by `,`, ended by `}`. -/
def jsonMemberList : Nat → List Char → Option (List Char)
  | 0, _ => none
  | Nat.succ fuel, l =>
    match l with
    | '"' :: r =>
      match jsonStringRest r with
      | none => none
      | some r1 =>
        match skipWs r1 with
        | ':' :: r2 =>
          match jsonValue fuel (skipWs r2) with
          | none => none
          | some r3 =>
            match skipWs r3 with
            | ',' :: r4 => jsonMemberList fuel (skipWs r4)
            | '}' :: r5 => some r5
            | _ => none
        | _ => none
    | _ => none

/-- After `[` (whitespace skipped): an empty array or an element list. -/
def jsonElements : Nat → List Char → Option (List Char)
  | 0, _ => none
  | Nat.succ fuel, l =>
    match l with
    | ']' :: r => some r
    | _ => jsonElementList fuel l

/-- One or more values, separated by `,`, ended by `]`. -/
def jsonElementList : Nat → List Char → Option (List Char)
  | 0, _ => none
  | Nat.succ fuel, l =>
    match jsonValue fuel l with
    | none => none
    | some r =>
      match skipWs r with
      | ',' :: r2 => jsonElementList fuel (skipWs r2)
      | ']' :: r3 => some r3
      | _ => none

end

/-- `JSON.parse(text)` succeeds: a value surrounded by whitespace, consuming
the whole input. -/
def jsonValid (l : List Char) : Bool :=
  match jsonValue (4 * l.length + 4) (skipWs l) with
  | some r => (skipWs r).isEmpty
  | none => false

/-- `validateJsonBody`: an empty (after trim) body is valid, otherwise the
result of `JSON.parse` (`{valid: …}`; the error message of the result object
is the engine-specific exception text, which the parser only embeds into
`ParseError.message` and never branches on). -/
def validateJsonBody (body : List Char) : Bool :=
  if (trim body).isEmpty then true else jsonValid body

/-- The parser's error message `Invalid JSON body: ${validation.error}`; the
interpolated engine-specific exception text is not modelled. -/
def invalidJsonMsg : List Char := str "Invalid JSON body: "

/-- `finalizeRequest` of `parseOsdevFile`: join the accumulated body lines,
trim, attach a non-empty body (valid or not), and emit a `ParseError` at
`startLine + 1` when the body fails JSON validation.  Returns the emitted
request together with the (zero or one) emitted errors. -/
def finalizeRequest (cur : OpenReq) (bodyLines : List (List Char))
    (endLine : Nat) : ParsedRequest × List ParseError :=
  let body := trim (joinNl bodyLines)
  let base : ParsedRequest :=
    { method := cur.method, path := cur.path, startLine := cur.startLine,
      endLine := endLine }
  if body.isEmpty then
    (base, [])
  else if validateJsonBody body then
    ({ base with body := some body }, [])
  else
    ({ base with body := some body },
      [{ message := invalidJsonMsg, line := cur.startLine + 1 }])

/-- The line loop of `parseOsdevFile`: `i` is the index of the first line of
`lines` in the document, `st` is `currentRequest` paired with `bodyLines`.
The source tests `isRequestLine` (the same regex) before calling
`parseRequestLine`, so one `parseRequestLine` call models both. -/
def parseLoop (lines : List (List Char)) (i : Nat)
    (st : Option (OpenReq × List (List Char))) :
    List ParsedRequest × List ParseError :=
  match lines with
  | [] =>
    match st with
    | none => ([], [])
    | some (cur, bl) =>
      let fin := finalizeRequest cur bl (i - 1)
      ([fin.1], fin.2)
  | l :: rest =>
    if isComment l then
      parseLoop rest (i + 1) st
    else
      match parseRequestLine l, st with
      | some mp, some (cur, bl) =>
        let fin := finalizeRequest cur bl (i - 1)
        let tail := parseLoop rest (i + 1) (some (⟨mp.1, mp.2, i⟩, []))
        (fin.1 :: tail.1, fin.2 ++ tail.2)
      | some mp, none =>
        parseLoop rest (i + 1) (some (⟨mp.1, mp.2, i⟩, []))
      | none, some (cur, bl) =>
        if bl.isEmpty && isBlankLine l then
          parseLoop rest (i + 1) (some (cur, bl))
        else
          parseLoop rest (i + 1) (some (cur, bl ++ [l]))
      | none, none =>
        parseLoop rest (i + 1) none

/-- `parseOsdevFile(content)`: split on `'\n'` and run the line loop. -/
def parseOsdevFile (content : List Char) : ParseResult :=
  let out := parseLoop (splitOnChar '\n' content) 0 none
  { requests := out.1, errors := out.2 }

/-- The (method, path, line-index) triples of the lines matching the
request-line grammar, in document order — the reference against which the
emitted requests are counted and ordered. -/
def requestLineHeads : Nat → List (List Char) → List (List Char × List Char × Nat)
  | _, [] => []
  | i, l :: rest =>
    match parseRequestLine l with
    | some mp => (mp.1, mp.2, i) :: requestLineHeads (i + 1) rest
    | none => requestLineHeads (i + 1) rest

/-- The head data of an emitted request. -/
def reqHead (r : ParsedRequest) : List Char × List Char × Nat :=
  (r.method, r.path, r.startLine)

/-! ## Path/query utilities (`src/language/parser.ts`) -/

/-- `getPathWithoutQuery`: the substring before the first `?` (`indexOf`),
or the whole path when there is none. -/
def getPathWithoutQuery (path : List Char) : List Char :=
  path.takeWhile (fun c => c ≠ '?')

/-- The value of a hexadecimal digit. -/
def hexVal (c : Char) : Option Nat :=
  if 48 ≤ c.toNat && c.toNat ≤ 57 then some (c.toNat - 48)
  else if 65 ≤ c.toNat && c.toNat ≤ 70 then some (c.toNat - 55)
  else if 97 ≤ c.toNat && c.toNat ≤ 102 then some (c.toNat - 87)
  else none

/-- A `%XY` continuation byte of a UTF-8 sequence: its six payload bits,
`none` unless the byte is in `0x80–0xBF`. -/
def contByte (h l : Char) : Option Nat := do
  let hv ← hexVal h
  let lv ← hexVal l
  let b := 16 * hv + lv
  if 0x80 ≤ b && b < 0xC0 then some (b - 0x80) else none

/-- `decodeURIComponent` (the Decode algorithm of ECMA-262 with an empty
reserved set): replace each `%`-escape run by the character its UTF-8 bytes
encode; `none` models the thrown `URIError` (truncated escape, non-hex
digits, a stray continuation byte, an overlong encoding, a surrogate, or a
code point beyond `0x10FFFF`). -/
def decodeURIComponentOpt : List Char → Option (List Char)
  | [] => some []
  | '%' :: h :: lo :: rest => do
    let hv ← hexVal h
    let lv ← hexVal lo
    let b := 16 * hv + lv
    if b < 0x80 then
      let tail ← decodeURIComponentOpt rest
      pure (Char.ofNat b :: tail)
    else if b < 0xC0 then
      none
    else if b < 0xE0 then
      match rest with
      | '%' :: h1 :: l1 :: r2 => do
        let b1 ← contByte h1 l1
        let v := (b - 0xC0) * 0x40 + b1
        if v < 0x80 then none
        else do
          let tail ← decodeURIComponentOpt r2
          pure (Char.ofNat v :: tail)
      | _ => none
    else if b < 0xF0 then
      match rest with
      | '%' :: h1 :: l1 :: '%' :: h2 :: l2 :: r2 => do
        let b1 ← contByte h1 l1
        let b2 ← contByte h2 l2
        let v := (b - 0xE0) * 0x1000 + b1 * 0x40 + b2
        if v < 0x800 || (0xD800 ≤ v && v ≤ 0xDFFF) then none
        else do
          let tail ← decodeURIComponentOpt r2
          pure (Char.ofNat v :: tail)
      | _ => none
    else if b < 0xF8 then
      match rest with
      | '%' :: h1 :: l1 :: '%' :: h2 :: l2 :: '%' :: h3 :: l3 :: r2 => do
        let b1 ← contByte h1 l1
        let b2 ← contByte h2 l2
        let b3 ← contByte h3 l3
        let v := (b - 0xF0) * 0x40000 + b1 * 0x1000 + b2 * 0x40 + b3
        if v < 0x10000 || 0x10FFFF < v then none
        else do
          let tail ← decodeURIComponentOpt r2
          pure (Char.ofNat v :: tail)
      | _ => none
    else
      none
  | '%' :: _ => none
  | c :: rest => do
    let tail ← decodeURIComponentOpt rest
    pure (c :: tail)

/-- `Map.prototype.set` on an association list: overwriting an existing key
keeps its original position, a new key is appended (JS `Map` insertion
order).  The same semantics models object spread for header merging. -/
def mapSet (m : List (List Char × List Char)) (k v : List Char) :
    List (List Char × List Char) :=
  if m.any (fun p => p.1 = k) then
    m.map (fun p => if p.1 = k then (k, v) else p)
  else
    m ++ [(k, v)]

/-- The query string: the substring after the first `?`. -/
def queryStringOf (path : List Char) : List Char :=
  (path.dropWhile (fun c => c ≠ '?')).drop 1

/-- The loop of `getQueryParams`: for each pair, `pair.split('=')` is
destructured into its first two elements (`key`, possibly-absent `value`);
an empty key is skipped; `decodeURIComponent(key)` and
`value ? decodeURIComponent(value) : ''` feed `Map.set`.  `none` models a
propagated `URIError`. -/
def setParams (m : List (List Char × List Char)) :
    List (List Char) → Option (List (List Char × List Char))
  | [] => some m
  | pair :: rest =>
    let parts := splitOnChar '=' pair
    let key := parts.headD []
    if key.isEmpty then
      setParams m rest
    else
      match decodeURIComponentOpt key with
      | none => none
      | some dk =>
        let dv? := match parts[1]? with
          | some v => if v.isEmpty then some [] else decodeURIComponentOpt v
          | none => some []
        match dv? with
        | none => none
        | some dv => setParams (mapSet m dk dv) rest

/-- `getQueryParams`: empty map when the path has no `?`, otherwise split
the substring after the first `?` on `&` and run the pair loop. -/
def getQueryParams (path : List Char) :
    Option (List (List Char × List Char)) :=
  if !path.contains '?' then some []
  else setParams [] (splitOnChar '&' (queryStringOf path))

/-! ## The query executor (`src/execution/queryExecutor.ts`)

`QueryResult.json` is the output of `JSON.parse`; JSON numbers are IEEE
doubles in the source, modelled here by their integer values (the only
numeric values the specification's scenarios exercise — float formatting is
out of scope). -/

/-- A parsed JSON value (`unknown` returned by `JSON.parse`). -/
inductive Json where
  | null
  | bool (b : Bool)
  | num (n : Int)
  | jstr (s : List Char)
  | arr (elems : List Json)
  | obj (fields : List (List Char × Json))
deriving Repr

/-- JS truthiness of a JSON value: `false`, `0`, `null` and `""` are falsy;
every array and object is truthy. -/
def jsTruthy : Json → Bool
  | .null => false
  | .bool b => b
  | .num n => n ≠ 0
  | .jstr s => !s.isEmpty
  | .arr _ => true
  | .obj _ => true

/-- JS truthiness of an optional string (`undefined` and `''` are falsy). -/
def optTruthy : Option (List Char) → Bool
  | none => false
  | some s => !s.isEmpty

/-- Decimal digits of a `Nat` (how JS renders the non-negative integers that
appear in status lines and timeout messages). -/
def natDec (n : Nat) : List Char := Nat.toDigits 10 n

/-- Decimal rendering of an `Int`. -/
def intDec (n : Int) : List Char :=
  if n < 0 then '-' :: natDec n.natAbs else natDec n.natAbs

/-- `JSON.stringify`'s escaping of one string character. -/
def escapeJsonChar (c : Char) : List Char :=
  if c = '"' then str "\\\""
  else if c = '\\' then str "\\\\"
  else if c = '\x08' then str "\\b"
  else if c = '\x09' then str "\\t"
  else if c = '\x0a' then str "\\n"
  else if c = '\x0c' then str "\\f"
  else if c = '\x0d' then str "\\r"
  else if c.toNat < 0x20 then
    str "\\u00" ++
      [(str "0123456789abcdef").getD (c.toNat / 16) '0',
       (str "0123456789abcdef").getD (c.toNat % 16) '0']
  else [c]

/-- `JSON.stringify` of a string value. -/
def stringifyString (s : List Char) : List Char :=
  '"' :: (s.flatMap escapeJsonChar) ++ ['"']

/-- `indent` spaces. -/
def spaces (n : Nat) : List Char := List.replicate n ' '

mutual

/-- `JSON.stringify(v, null, 2)` at nesting depth `d`: the multi-line
serialization with two-space indentation. -/
def stringify2 : Nat → Json → List Char
  | _, .null => str "null"
  | _, .bool true => str "true"
  | _, .bool false => str "false"
  | _, .num n => intDec n
  | _, .jstr s => stringifyString s
  | _, .arr [] => str "[]"
  | d, .arr (e :: es) =>
    '[' :: '\n' :: stringify2Items (d + 1) e es ++
      '\n' :: spaces (2 * d) ++ [']']
  | _, .obj [] => '{' :: ['}']
  | d, .obj (f :: fs) =>
    '{' :: '\n' :: stringify2Fields (d + 1) f fs ++
      '\n' :: spaces (2 * d) ++ ['}']
termination_by _ v => sizeOf v

/-- Array items, each on its own indented line, comma-separated. -/
def stringify2Items : Nat → Json → List Json → List Char
  | d, e, [] => spaces (2 * d) ++ stringify2 d e
  | d, e, e2 :: es =>
    spaces (2 * d) ++ stringify2 d e ++ ',' :: '\n' :: stringify2Items d e2 es
termination_by _ e es => sizeOf e + sizeOf es

/-- Object members, `"key": value`, each on its own indented line. -/
def stringify2Fields : Nat → (List Char × Json) → List (List Char × Json) → List Char
  | d, (k, v), [] => spaces (2 * d) ++ stringifyString k ++ ':' :: ' ' :: stringify2 d v
  | d, (k, v), f2 :: fs =>
    spaces (2 * d) ++ stringifyString k ++ ':' :: ' ' :: stringify2 d v ++
      ',' :: '\n' :: stringify2Fields d f2 fs
termination_by _ f fs => sizeOf f + sizeOf fs

end

/-- `authType` (`'basic' | 'aws-iam'` in `connectionTypes.ts`). -/
inductive AuthType where
  | basic
  | awsIam
deriving DecidableEq, Repr

/-- `StoredConnection` (`connectionTypes.ts`). -/
structure StoredConnection where
  id : List Char
  name : List Char
  url : List Char
  authType : AuthType
  username : Option (List Char) := none
  awsRegion : Option (List Char) := none
  awsProfile : Option (List Char) := none
  sslVerify : Bool
  caCertPath : Option (List Char) := none

/-- The optional AWS credential pair of `ExecuteOptions`. -/
structure AwsCredPair where
  accessKeyId : Option (List Char) := none
  secretAccessKey : Option (List Char) := none

/-- `ExecuteOptions`. -/
structure ExecuteOptions where
  connection : StoredConnection
  password : Option (List Char) := none
  awsCredentials : Option AwsCredPair := none
  timeout : Option Nat := none

/-- `DEFAULT_TIMEOUT` (30 seconds). -/
def DEFAULT_TIMEOUT : Nat := 30000

/-- `QueryResult`. -/
structure QueryResult where
  success : Bool
  statusCode : Nat
  statusMessage : List Char
  body : List Char
  json : Option Json := none
  headers : List (List Char × List Char) := []
  durationMs : Nat
  error : Option (List Char) := none

/-- UTF-8 bytes of one character. -/
def utf8Bytes (c : Char) : List Nat :=
  let n := c.toNat
  if n < 0x80 then [n]
  else if n < 0x800 then [0xC0 + n / 0x40, 0x80 + n % 0x40]
  else if n < 0x10000 then
    [0xE0 + n / 0x1000, 0x80 + n / 0x40 % 0x40, 0x80 + n % 0x40]
  else
    [0xF0 + n / 0x40000, 0x80 + n / 0x1000 % 0x40, 0x80 + n / 0x40 % 0x40,
     0x80 + n % 0x40]

/-- The base64 alphabet. -/
def base64Alphabet : List Char :=
  str "ABCDEFGHIJKLMNOPQRSTUVWXYZabcdefghijklmnopqrstuvwxyz0123456789+/"

/-- Standard base64 of a byte list (`Buffer.toString('base64')`). -/
def base64 : List Nat → List Char
  | [] => []
  | [a] =>
    [base64Alphabet.getD (a / 4) 'A',
     base64Alphabet.getD (a % 4 * 16) 'A', '=', '=']
  | [a, b] =>
    [base64Alphabet.getD (a / 4) 'A',
     base64Alphabet.getD (a % 4 * 16 + b / 16) 'A',
     base64Alphabet.getD (b % 16 * 4) 'A', '=']
  | a :: b :: c :: rest =>
    [base64Alphabet.getD (a / 4) 'A',
     base64Alphabet.getD (a % 4 * 16 + b / 16) 'A',
     base64Alphabet.getD (b % 16 * 4 + c / 64) 'A',
     base64Alphabet.getD (c % 64) 'A'] ++ base64 rest

/-- `generateBasicAuthHeader` (`basicAuth.ts`):
`"Basic " + base64(utf8(username + ":" + password))`. -/
def generateBasicAuthHeader (username password : List Char) : List Char :=
  str "Basic " ++ base64 ((username ++ ':' :: password).flatMap utf8Bytes)

/-- `createBasicAuthHeaders` (`basicAuth.ts`): the `Authorization` header. -/
def createBasicAuthHeaders (username password : List Char) :
    List (List Char × List Char) :=
  [(str "Authorization", generateBasicAuthHeader username password)]

/-- `getAuthHeaders`: Basic mode throws unless both username and password
are truthy; IAM mode throws unless `awsRegion` is truthy and otherwise
delegates to `signRequest` (the external AWS SigV4 capability, whose
outcome — signed headers or a rejection — is supplied as `signResult`). -/
def getAuthHeaders (options : ExecuteOptions)
    (signResult : Except (List Char) (List (List Char × List Char))) :
    Except (List Char) (List (List Char × List Char)) :=
  match options.connection.authType with
  | .basic =>
    if !optTruthy options.connection.username || !optTruthy options.password then
      .error (str "Username and password required for Basic Auth")
    else
      .ok (createBasicAuthHeaders (options.connection.username.getD [])
        (options.password.getD []))
  | .awsIam =>
    if !optTruthy options.connection.awsRegion then
      .error (str "AWS region required for IAM Auth")
    else
      signResult

/-- `buildRequestUrl`: base URL with a trailing slash stripped, path with a
leading slash enforced. -/
def buildRequestUrl (baseUrl path : List Char) : List Char :=
  let normalizedPath := match path with
    | '/' :: _ => path
    | _ => '/' :: path
  let normalizedBase :=
    if baseUrl.getLast? = some '/' then baseUrl.dropLast else baseUrl
  normalizedBase ++ normalizedPath

/-- The fields of a parsed `URL` that the executor reads. -/
structure UrlParts where
  protocol : List Char
  hostname : List Char
  port : Option Nat := none
  pathname : List Char
  search : List Char

/-- The HTTPS agent configuration built by `createHttpsAgent`. -/
structure HttpsAgent where
  rejectUnauthorized : Bool
  ca : Option (List Char) := none

/-- `createHttpsAgent`: honour `sslVerify`; when `caCertPath` is truthy,
read the CA file (`caRead` is the filesystem outcome) and re-throw a read
failure as `Failed to read CA certificate: …`. -/
def createHttpsAgent (connection : StoredConnection)
    (caRead : Except (List Char) (List Char)) :
    Except (List Char) HttpsAgent :=
  if optTruthy connection.caCertPath then
    match caRead with
    | .ok ca => .ok { rejectUnauthorized := connection.sslVerify, ca := some ca }
    | .error e => .error (str "Failed to read CA certificate: " ++ e)
  else
    .ok { rejectUnauthorized := connection.sslVerify }

/-- The single event with which the dispatched request completes: a full
response (`json` being the outcome of `JSON.parse` on its body, `none` when
the body is not JSON — response bytes are environment data), a transport
error, or the timeout event. -/
inductive TransportOutcome where
  | response (statusCode : Option Nat) (statusMessage : Option (List Char))
      (body : List Char) (json : Option Json)
      (headers : List (List Char × List Char))
  | transportError (message : List Char)
  | timedOut

/-- The environment of one `executeRequest` call: the outcome of `new URL`
(which throws on an invalid URL), of the external signer, of reading the CA
file, the transport event, and the measured wall-clock duration. -/
structure ExecEnv where
  urlParse : Except (List Char) UrlParts
  signResult : Except (List Char) (List (List Char × List Char)) :=
    .ok []
  caRead : Except (List Char) (List Char) := .ok []
  transport : TransportOutcome
  elapsed : Nat := 0

/-- The `QueryResult` synthesised for every captured failure: `error` set,
`success` false, `statusCode` 0, empty body and headers. -/
def errorResult (elapsed : Nat) (msg : List Char) : QueryResult :=
  { success := false, statusCode := 0, statusMessage := [], body := [],
    headers := [], durationMs := elapsed, error := some msg }

/-- The body of `executeRequest`'s `try` block: build the URL, parse it,
resolve auth headers, merge them over the JSON default headers, construct
the HTTPS agent when the scheme is `https:`, then dispatch and settle on
the single transport event.  An `.error` is a thrown exception. -/
def executeRequestAux (request : ParsedRequest) (options : ExecuteOptions)
    (env : ExecEnv) : Except (List Char) QueryResult := do
  let _url := buildRequestUrl options.connection.url request.path
  let parsedUrl ← env.urlParse
  let isHttps := parsedUrl.protocol = str "https:"
  let authHeaders ← getAuthHeaders options env.signResult
  let _headers := authHeaders.foldl (fun m p => mapSet m p.1 p.2)
    [(str "Content-Type", str "application/json"),
     (str "Accept", str "application/json")]
  let _agent ← if isHttps then
      (createHttpsAgent options.connection env.caRead).map some
    else
      .ok none
  match env.transport with
  | .response sc sm body json headers =>
    let statusCode := sc.getD 0
    .ok { success := decide (200 ≤ statusCode ∧ statusCode < 300),
          statusCode := statusCode, statusMessage := sm.getD [],
          body := body, json := json, headers := headers,
          durationMs := env.elapsed }
  | .transportError msg => .ok (errorResult env.elapsed msg)
  | .timedOut =>
    .ok (errorResult env.elapsed
      (str "Request timed out after " ++
        natDec (options.timeout.getD DEFAULT_TIMEOUT) ++ str "ms"))

/-- `executeRequest`: the `try`/`catch` wrapper — any exception thrown
before dispatch is captured into a `QueryResult` with `error` set. -/
def executeRequest (request : ParsedRequest) (options : ExecuteOptions)
    (env : ExecEnv) : QueryResult :=
  match executeRequestAux request options env with
  | .ok r => r
  | .error e => errorResult env.elapsed e

/-- `executeRequests`: strictly sequential execution, preserving order
(each request's environment is that round trip's outcome). -/
def executeRequests (requests : List (ParsedRequest × ExecEnv))
    (options : ExecuteOptions) : List QueryResult :=
  requests.map (fun re => executeRequest re.1 options re.2)

/-! ## The result formatter (`formatQueryResult`) -/

/-- The request-info line `# METHOD path`. -/
def headerLineOf (request : ParsedRequest) : List Char :=
  str "# " ++ request.method ++ str " " ++ request.path

/-- The status line: `# ERROR: <message>` when `result.error` is truthy,
otherwise glyph, status code, status message and duration. -/
def statusLineOf (result : QueryResult) : List Char :=
  if optTruthy result.error then
    str "# ERROR: " ++ result.error.getD []
  else
    str "# " ++ (if result.success then str "✓" else str "✗") ++ str " " ++
      natDec result.statusCode ++ str " " ++ result.statusMessage ++
      str " (" ++ natDec result.durationMs ++ str "ms)"

/-- Truthiness of `result.json` (`undefined` is falsy, otherwise JS value
truthiness). -/
def jsonTruthy (json : Option Json) : Bool :=
  match json with
  | some j => jsTruthy j
  | none => false

/-- `formatQueryResult(request, result, prettyPrint = true)`: push the
request-info line, a blank, the status line, a blank, then — when
`result.json && prettyPrint` — `JSON.stringify(result.json, null, 2)`, else
— when `result.body` is truthy — the raw body, else nothing; join the
pushed lines with `'\n'`. -/
def formatQueryResult (request : ParsedRequest) (result : QueryResult)
    (prettyPrint : Bool := true) : List Char :=
  let bodyLines : List (List Char) :=
    if jsonTruthy result.json && prettyPrint then
      [stringify2 0 (result.json.getD .null)]
    else if !result.body.isEmpty then
      [result.body]
    else
      []
  joinNl ([headerLineOf request, [], statusLineOf result, []] ++ bodyLines)

/-! ## Reference definitions used to state the claims -/

/-- The error (if any) that `finalizeRequest` emits for an emitted request:
one per request whose attached body fails JSON validation, at line
`startLine + 1`. -/
def errOf (r : ParsedRequest) : Option ParseError :=
  match r.body with
  | none => none
  | some b =>
    if validateJsonBody b then none
    else some { message := invalidJsonMsg, line := r.startLine + 1 }

/-- The body field assembled from an accumulator of body lines. -/
def bodyOf (bls : List (List Char)) : Option (List Char) :=
  let b := trim (joinNl bls)
  if b.isEmpty then none else some b

/-- The key of a query pair as the amended claim words it: the text before
the first `=`. -/
def specKey (pair : List Char) : List Char :=
  pair.takeWhile (fun c => c ≠ '=')

/-- The value of a query pair as the amended claim words it: absent without
`=`, otherwise the text between the first and the second `=` (text after a
second `=` is discarded). -/
def specValue (pair : List Char) : Option (List Char) :=
  match pair.dropWhile (fun c => c ≠ '=') with
  | [] => none
  | _ :: rest => some (rest.takeWhile (fun c => c ≠ '='))

/-- The pair loop of the amended claim, with key/value read off by
`specKey`/`specValue` instead of `split('=')`. -/
def setParamsSpec (m : List (List Char × List Char)) :
    List (List Char) → Option (List (List Char × List Char))
  | [] => some m
  | pair :: rest =>
    let key := specKey pair
    if key.isEmpty then
      setParamsSpec m rest
    else
      match decodeURIComponentOpt key with
      | none => none
      | some dk =>
        let dv? := match specValue pair with
          | some v => if v.isEmpty then some [] else decodeURIComponentOpt v
          | none => some []
        match dv? with
        | none => none
        | some dv => setParamsSpec (mapSet m dk dv) rest

/-- `getQueryParams` as the amended claim describes it. -/
def queryParamsSpec (path : List Char) :
    Option (List (List Char × List Char)) :=
  if !path.contains '?' then some []
  else setParamsSpec [] (splitOnChar '&' (queryStringOf path))

/-! ## Helper lemmas -/

theorem dropWhile_append_left {α : Type} (p : α → Bool) (a b : List α)
    (h : a.dropWhile p ≠ []) : (a ++ b).dropWhile p = a.dropWhile p ++ b := by
  induction a with
  | nil => simp at h
  | cons c a ih =>
    by_cases hc : p c
    · simp only [List.cons_append, List.dropWhile_cons, hc, if_true, ite_true]
      simp only [List.dropWhile_cons, hc, ite_true] at h ⊢
      exact ih h
    · simp [List.dropWhile_cons, hc]

theorem dropWhile_append_all {α : Type} (p : α → Bool) (a b : List α)
    (h : a.dropWhile p = []) : (a ++ b).dropWhile p = b.dropWhile p := by
  induction a with
  | nil => simp
  | cons c a ih =>
    by_cases hc : p c
    · simp only [List.dropWhile_cons, hc, ite_true] at h
      simp [List.dropWhile_cons, hc, ih h]
    · simp [List.dropWhile_cons, hc] at h

theorem trimL_eq_nil_iff (l : List Char) :
    trimL l = [] ↔ ∀ c ∈ l, jsWS c = true := by
  simp [trimL, List.dropWhile_eq_nil_iff]

theorem trimR_eq_nil_iff (l : List Char) :
    trimR l = [] ↔ ∀ c ∈ l, jsWS c = true := by
  simp [trimR, List.dropWhile_eq_nil_iff]

theorem trim_eq_nil_iff (l : List Char) :
    trim l = [] ↔ ∀ c ∈ l, jsWS c = true := by
  constructor
  · intro h
    have h1 : ∀ c ∈ trimL l, jsWS c = true := (trimR_eq_nil_iff _).mp h
    have h2 : trimL l = [] := by
      rcases hx : trimL l with _ | ⟨d, t⟩
      · rfl
      · exfalso
        have hx' : l.dropWhile jsWS = d :: t := hx
        have hne : l.dropWhile jsWS ≠ [] := by rw [hx']; simp
        have hd := List.head_dropWhile_not jsWS l hne
        have hdmem : (l.dropWhile jsWS).head hne ∈ trimL l :=
          List.head_mem hne
        have := h1 _ hdmem
        rw [this] at hd; cases hd
    exact (trimL_eq_nil_iff l).mp h2
  · intro h
    have h1 : trimL l = [] := (trimL_eq_nil_iff l).mpr h
    simp [trim, h1, trimR]

theorem blank_all_ws (l : List Char) (h : isBlankLine l = true) :
    ∀ c ∈ l, jsWS c = true := by
  have : trim l = [] := by
    simpa [isBlankLine, List.isEmpty_iff] using h
  exact (trim_eq_nil_iff l).mp this

theorem trimL_append_left (a y : List Char) (ha : trimL a ≠ []) :
    trimL (a ++ y) = trimL a ++ y :=
  dropWhile_append_left jsWS a y ha

theorem trimR_append_right (x b : List Char) (hb : trimR b ≠ []) :
    trimR (x ++ b) = x ++ trimR b := by
  have hb' : b.reverse.dropWhile jsWS ≠ [] := by
    intro h; exact hb (by simp [trimR, h])
  simp only [trimR, List.reverse_append]
  rw [dropWhile_append_left jsWS b.reverse x.reverse hb']
  simp

theorem trimR_append_all (x b : List Char) (hb : ∀ c ∈ b, jsWS c = true) :
    trimR (x ++ b) = trimR x := by
  have hb' : b.reverse.dropWhile jsWS = [] :=
    List.dropWhile_eq_nil_iff.mpr (by simpa using hb)
  simp only [trimR, List.reverse_append]
  rw [dropWhile_append_all jsWS b.reverse x.reverse hb']

/-- Appending all-whitespace text does not change `trim`. -/
theorem trim_append_ws (x ys : List Char) (hy : ∀ c ∈ ys, jsWS c = true) :
    trim (x ++ ys) = trim x := by
  by_cases hx : trimL x = []
  · have h1 : ∀ c ∈ x, jsWS c = true := (trimL_eq_nil_iff x).mp hx
    have h2 : trimL (x ++ ys) = [] := by
      rw [trimL_eq_nil_iff]
      intro c hc
      rcases List.mem_append.mp hc with h | h
      · exact h1 c h
      · exact hy c h
    simp [trim, h2, hx, trimR]
  · rw [trim, trimL_append_left x ys hx, trimR_append_all _ _ hy, trim]

theorem joinNl_cons (l : List Char) (ls : List (List Char)) (h : ls ≠ []) :
    joinNl (l :: ls) = l ++ '\n' :: joinNl ls := by
  cases ls with
  | nil => cases h rfl
  | cons a as => rfl

theorem joinNl_append (xs ys : List (List Char)) (hx : xs ≠ [])
    (hy : ys ≠ []) :
    joinNl (xs ++ ys) = joinNl xs ++ '\n' :: joinNl ys := by
  induction xs with
  | nil => cases hx rfl
  | cons a as ih =>
    cases as with
    | nil => cases ys with
      | nil => cases hy rfl
      | cons b bs => simp [joinNl]
    | cons a2 as2 =>
      have h1 : (a2 :: as2) ++ ys ≠ [] := by simp
      rw [List.cons_append, joinNl_cons a _ h1, joinNl_cons a _ (by simp),
        ih (by simp) ]
      simp

/-- A line whose trimmed form is empty matches neither the comment test nor
the request-line grammar. -/
theorem blank_not_comment_not_request (l : List Char)
    (h : isBlankLine l = true) :
    isComment l = false ∧ parseRequestLine l = none := by
  have ht : trim l = [] := by
    simpa [isBlankLine, List.isEmpty_iff] using h
  constructor
  · simp [isComment, ht]
  · simp only [parseRequestLine, ht, List.takeWhile_nil, List.dropWhile_nil]
    have : HTTP_METHODS.contains (toUpperList []) = false := by decide
    simp [this]

/-- Every method token starts with one of the letters `G P D H`. -/
theorem methods_head : ∀ m ∈ HTTP_METHODS,
    m.head? = some 'G' ∨ m.head? = some 'P' ∨ m.head? = some 'D' ∨
      m.head? = some 'H' := by decide

/-- A comment line never matches the request-line grammar. -/
theorem comment_not_request (l : List Char) (h : isComment l = true) :
    parseRequestLine l = none := by
  rcases hx : trim l with _ | ⟨c, t⟩
  · simp [isComment, hx] at h
  · have hc : c = '#' := by
      simp only [isComment, hx, decide_eq_true_eq] at h
      exact h
    subst hc
    simp only [parseRequestLine, hx]
    have hw : jsWS '#' = false := by decide
    have htok : List.takeWhile (fun c => !jsWS c) ('#' :: t) =
        '#' :: List.takeWhile (fun c => !jsWS c) t := by
      simp [List.takeWhile_cons, hw]
    rw [htok]
    have hcontains : HTTP_METHODS.contains
        (toUpperList ('#' :: List.takeWhile (fun c => !jsWS c) t)) = false := by
      by_contra hcon
      have hmem : toUpperList ('#' :: List.takeWhile (fun c => !jsWS c) t) ∈
          HTTP_METHODS :=
        List.mem_of_elem_eq_true (Bool.of_not_eq_false hcon)
      have hhead := methods_head _ hmem
      have hup : Char.toUpper '#' = '#' := by decide
      simp [toUpperList, hup] at hhead
    rw [hcontains]
    simp

theorem finalize_fields (cur : OpenReq) (bl : List (List Char)) (e : Nat) :
    (finalizeRequest cur bl e).1.method = cur.method ∧
    (finalizeRequest cur bl e).1.path = cur.path ∧
    (finalizeRequest cur bl e).1.startLine = cur.startLine ∧
    (finalizeRequest cur bl e).1.endLine = e := by
  simp only [finalizeRequest]
  split
  · simp
  · split <;> simp

theorem finalize_body (cur : OpenReq) (bl : List (List Char)) (e : Nat) :
    (finalizeRequest cur bl e).1.body = bodyOf bl := by
  simp only [finalizeRequest, bodyOf]
  split
  · next h => simp [h]
  · next h => split <;> simp [h]

theorem finalize_err (cur : OpenReq) (bl : List (List Char)) (e : Nat) :
    (finalizeRequest cur bl e).2 =
      (errOf (finalizeRequest cur bl e).1).toList := by
  simp only [finalizeRequest, errOf]
  split
  · simp
  · next h =>
    split
    · next hv => simp [hv]
    · next hv =>
      simp [hv, finalize_fields]

/-- The emitted requests' head data is exactly the in-order list of
request-line matches (plus, in state `some`, the still-open request). -/
theorem parseLoop_heads (rest : List (List Char)) : ∀ i : Nat,
    ((parseLoop rest i none).1.map reqHead = requestLineHeads i rest) ∧
    (∀ cur bl, (parseLoop rest i (some (cur, bl))).1.map reqHead =
      (cur.method, cur.path, cur.startLine) :: requestLineHeads i rest) := by
  induction rest with
  | nil =>
    intro i
    constructor
    · simp [parseLoop, requestLineHeads]
    · intro cur bl
      have hh := finalize_fields cur bl (i - 1)
      simp [parseLoop, requestLineHeads, reqHead, hh.1, hh.2.1, hh.2.2.1]
  | cons l rest ih =>
    intro i
    by_cases hc : isComment l
    · have hr := comment_not_request l hc
      constructor
      · simp only [parseLoop, hc, if_true, requestLineHeads, hr]
        exact (ih (i + 1)).1
      · intro cur bl
        simp only [parseLoop, hc, if_true, requestLineHeads, hr]
        exact (ih (i + 1)).2 cur bl
    · cases hr : parseRequestLine l with
      | none =>
        constructor
        · simp only [parseLoop, hc, Bool.false_eq_true, if_false,
            requestLineHeads, hr]
          exact (ih (i + 1)).1
        · intro cur bl
          simp only [parseLoop, hc, Bool.false_eq_true, if_false,
            requestLineHeads, hr]
          split
          · exact (ih (i + 1)).2 cur bl
          · exact (ih (i + 1)).2 cur (bl ++ [l])
      | some mp =>
        constructor
        · simp only [parseLoop, hc, Bool.false_eq_true, if_false,
            requestLineHeads, hr]
          exact (ih (i + 1)).2 ⟨mp.1, mp.2, i⟩ []
        · intro cur bl
          simp only [parseLoop, hc, Bool.false_eq_true, if_false,
            requestLineHeads, hr, List.map_cons]
          have hh := finalize_fields cur bl (i - 1)
          have htail := (ih (i + 1)).2 ⟨mp.1, mp.2, i⟩ []
          rw [htail]
          simp [reqHead, hh.1, hh.2.1, hh.2.2.1]

/-- The emitted errors are exactly the `errOf` images of the emitted
requests, in the same order. -/
theorem parseLoop_errors (rest : List (List Char)) :
    ∀ (i : Nat) (st : Option (OpenReq × List (List Char))),
      (parseLoop rest i st).2 = (parseLoop rest i st).1.filterMap errOf := by
  induction rest with
  | nil =>
    intro i st
    match st with
    | none => simp [parseLoop]
    | some (cur, bl) =>
      simp only [parseLoop, List.filterMap_cons, List.filterMap_nil]
      rw [finalize_err cur bl (i - 1)]
      cases errOf (finalizeRequest cur bl (i - 1)).1 <;> simp
  | cons l rest ih =>
    intro i st
    by_cases hc : isComment l
    · simp only [parseLoop, hc, if_true]
      exact ih (i + 1) st
    · cases hr : parseRequestLine l with
      | none =>
        match st with
        | none =>
          simp only [parseLoop, hc, Bool.false_eq_true, if_false, hr]
          exact ih (i + 1) none
        | some (cur, bl) =>
          simp only [parseLoop, hc, Bool.false_eq_true, if_false, hr]
          split
          · exact ih (i + 1) (some (cur, bl))
          · exact ih (i + 1) (some (cur, bl ++ [l]))
      | some mp =>
        match st with
        | none =>
          simp only [parseLoop, hc, Bool.false_eq_true, if_false, hr]
          exact ih (i + 1) (some (⟨mp.1, mp.2, i⟩, []))
        | some (cur, bl) =>
          simp only [parseLoop, hc, Bool.false_eq_true, if_false, hr,
            List.filterMap_cons]
          rw [finalize_err cur bl (i - 1), ih (i + 1) (some (⟨mp.1, mp.2, i⟩, []))]
          cases errOf (finalizeRequest cur bl (i - 1)).1 <;> simp

/-- Every emitted request's body is assembled from an accumulator of
non-comment lines. -/
theorem parseLoop_bodies (rest : List (List Char)) :
    ∀ (i : Nat) (st : Option (OpenReq × List (List Char))),
      (∀ cur bl, st = some (cur, bl) → ∀ b ∈ bl, isComment b = false) →
      ∀ r ∈ (parseLoop rest i st).1,
        ∃ bls, (∀ b ∈ bls, isComment b = false) ∧ r.body = bodyOf bls := by
  induction rest with
  | nil =>
    intro i st hst r hr
    match st with
    | none => simp [parseLoop] at hr
    | some (cur, bl) =>
      simp only [parseLoop, List.mem_singleton] at hr
      exact ⟨bl, hst cur bl rfl, hr ▸ finalize_body cur bl (i - 1)⟩
  | cons l rest ih =>
    intro i st hst r hr
    by_cases hc : isComment l
    · simp only [parseLoop, hc, if_true] at hr
      exact ih (i + 1) st hst r hr
    · cases hrl : parseRequestLine l with
      | none =>
        match st with
        | none =>
          simp only [parseLoop, hc, Bool.false_eq_true, if_false, hrl] at hr
          exact ih (i + 1) none (by intro _ _ h; cases h) r hr
        | some (cur, bl) =>
          simp only [parseLoop, hc, Bool.false_eq_true, if_false, hrl] at hr
          split at hr
          · exact ih (i + 1) (some (cur, bl)) hst r hr
          · refine ih (i + 1) (some (cur, bl ++ [l])) ?_ r hr
            intro cur2 bl2 heq b hb
            injection heq with heq2
            injection heq2 with _ heq3
            subst heq3
            rcases List.mem_append.mp hb with h | h
            · exact hst cur bl rfl b h
            · rcases List.mem_singleton.mp h with rfl
              simpa using hc
      | some mp =>
        match st with
        | none =>
          simp only [parseLoop, hc, Bool.false_eq_true, if_false, hrl] at hr
          refine ih (i + 1) (some (⟨mp.1, mp.2, i⟩, [])) ?_ r hr
          intro cur2 bl2 heq b hb
          injection heq with heq2
          injection heq2 with _ heq3
          subst heq3
          cases hb
        | some (cur, bl) =>
          simp only [parseLoop, hc, Bool.false_eq_true, if_false, hrl,
            List.mem_cons] at hr
          rcases hr with rfl | hr
          · exact ⟨bl, hst cur bl rfl, finalize_body cur bl (i - 1)⟩
          · refine ih (i + 1) (some (⟨mp.1, mp.2, i⟩, [])) ?_ r hr
            intro cur2 bl2 heq b hb
            injection heq with heq2
            injection heq2 with _ heq3
            subst heq3
            cases hb

/-- Line-span invariant of the loop: emitted requests start at or after the
current index, satisfy `startLine ≤ endLine`, and are pairwise disjoint in
strictly increasing order; with an open request, the first emitted request
carries its `startLine` and all later ones start after its `endLine`. -/
theorem parseLoop_spans (rest : List (List Char)) : ∀ i : Nat,
    ((∀ r ∈ (parseLoop rest i none).1,
        i ≤ r.startLine ∧ r.startLine ≤ r.endLine) ∧
      (parseLoop rest i none).1.Pairwise
        (fun a b => a.endLine < b.startLine)) ∧
    (∀ cur bl, cur.startLine < i →
      ∃ r0 rs, (parseLoop rest i (some (cur, bl))).1 = r0 :: rs ∧
        r0.startLine = cur.startLine ∧ r0.startLine ≤ r0.endLine ∧
        (∀ r ∈ rs, r0.endLine + 1 ≤ r.startLine ∧ r.startLine ≤ r.endLine) ∧
        rs.Pairwise (fun a b => a.endLine < b.startLine)) := by
  induction rest with
  | nil =>
    intro i
    constructor
    · simp [parseLoop]
    · intro cur bl hlt
      have hh := finalize_fields cur bl (i - 1)
      refine ⟨(finalizeRequest cur bl (i - 1)).1, [], by simp [parseLoop],
        hh.2.2.1, ?_, by simp, by simp⟩
      rw [hh.2.2.1, hh.2.2.2]
      omega
  | cons l rest ih =>
    intro i
    by_cases hc : isComment l
    · constructor
      · refine ⟨fun r hr => ?_, ?_⟩
        · have := (ih (i + 1)).1.1 r (by
            simpa only [parseLoop, hc, if_true] using hr)
          omega
        · simpa only [parseLoop, hc, if_true] using (ih (i + 1)).1.2
      · intro cur bl hlt
        simpa only [parseLoop, hc, if_true] using
          (ih (i + 1)).2 cur bl (by omega)
    · cases hrl : parseRequestLine l with
      | none =>
        constructor
        · refine ⟨fun r hr => ?_, ?_⟩
          · have := (ih (i + 1)).1.1 r (by
              simpa only [parseLoop, hc, Bool.false_eq_true, if_false,
                hrl] using hr)
            omega
          · simpa only [parseLoop, hc, Bool.false_eq_true, if_false, hrl]
              using (ih (i + 1)).1.2
        · intro cur bl hlt
          simp only [parseLoop, hc, Bool.false_eq_true, if_false, hrl]
          split
          · exact (ih (i + 1)).2 cur bl (by omega)
          · exact (ih (i + 1)).2 cur (bl ++ [l]) (by omega)
      | some mp =>
        have hopen := (ih (i + 1)).2 ⟨mp.1, mp.2, i⟩ [] (Nat.lt_succ_self i)
        rcases hopen with ⟨r1, rs2, heq, hs1, hse1, hall1, hpw1⟩
        constructor
        · constructor
          · intro r hr
            simp only [parseLoop, hc, Bool.false_eq_true, if_false, hrl,
              heq] at hr
            rcases List.mem_cons.mp hr with rfl | hr
            · simp only [hs1] at hse1 ⊢
              omega
            · have := hall1 r hr
              simp only [hs1] at hse1
              omega
          · simp only [parseLoop, hc, Bool.false_eq_true, if_false, hrl, heq]
            refine List.pairwise_cons.mpr ⟨fun r hr => ?_, hpw1⟩
            have := hall1 r hr
            omega
        · intro cur bl hlt
          have hh := finalize_fields cur bl (i - 1)
          refine ⟨(finalizeRequest cur bl (i - 1)).1, r1 :: rs2, ?_, hh.2.2.1,
            ?_, ?_, ?_⟩
          · simp only [parseLoop, hc, Bool.false_eq_true, if_false, hrl, heq]
          · rw [hh.2.2.1, hh.2.2.2]; omega
          · intro r hr
            rw [hh.2.2.2]
            rcases List.mem_cons.mp hr with rfl | hr
            · simp only [hs1] at hse1 ⊢
              omega
            · have := hall1 r hr
              simp only [hs1] at hse1
              omega
          · refine List.pairwise_cons.mpr ⟨fun r hr => ?_, hpw1⟩
            have := hall1 r hr
            omega

/-! ## Claim theorems -/

/-- C2 (counterexample): on the spec's own scenario
`"POST /my-index/_search\n{invalid json}"` exactly one `ParseError` is
emitted, but its `line` field is `1 = startLine + 1`, not the request's
`startLine = 0` as the claim states. -/
theorem parse_error_line_cex :
    (parseOsdevFile (str "POST /my-index/_search\n\x7binvalid json\x7d")).requests.map
        (fun r => r.startLine) = [0] ∧
    (parseOsdevFile (str "POST /my-index/_search\n\x7binvalid json\x7d")).errors.map
        (fun e => e.line) = [1] ∧
    (1 : Nat) ≠ 0 := by decide

/-- C2 (amended): for every input text, the emitted errors are exactly one
`ParseError` per request whose attached body fails JSON validation, in
request order, each with message `Invalid JSON body: …` and `line` equal to
the request's `startLine + 1` (the line after the request line). -/
theorem parse_errors_characterized (content : List Char) :
    (parseOsdevFile content).errors =
      (parseOsdevFile content).requests.filterMap errOf :=
  parseLoop_errors (splitOnChar '\n' content) 0 none

/-- C4: a comment line is skipped entirely by the loop (state, output and
line index advance exactly as if the line were absent, so it neither starts
nor ends a request), it never matches the request-line grammar, and every
emitted body is assembled from an accumulator of non-comment lines only. -/
theorem comments_skipped_entirely :
    (∀ l, isComment l = true →
      (∀ rest i st, parseLoop (l :: rest) i st = parseLoop rest (i + 1) st) ∧
      parseRequestLine l = none) ∧
    (∀ content, ∀ r ∈ (parseOsdevFile content).requests,
      ∃ bls, (∀ b ∈ bls, isComment b = false) ∧ r.body = bodyOf bls) := by
  constructor
  · intro l hl
    exact ⟨fun rest i st => by simp [parseLoop, hl],
      comment_not_request l hl⟩
  · intro content r hr
    exact parseLoop_bodies (splitOnChar '\n' content) 0 none
      (by intro _ _ h; cases h) r hr

/-- C4 (witness): a concrete comment line is skipped by the loop, is no
request line, and a concretely parsed request has a non-comment body
provenance. -/
theorem comments_skipped_entirely_witness :
    parseLoop [str "# note", str "GET /x"] 0 none =
      parseLoop [str "GET /x"] 1 none ∧
    parseRequestLine (str "# note") = none ∧
    ∃ bls, (∀ b ∈ bls, isComment b = false) ∧
      ({ method := str "GET", path := str "/a", body := some (str "1"),
         startLine := 0, endLine := 1 } : ParsedRequest).body = bodyOf bls := by
  refine ⟨(comments_skipped_entirely.1 (str "# note") (by decide)).1
      [str "GET /x"] 0 none,
    (comments_skipped_entirely.1 (str "# note") (by decide)).2,
    comments_skipped_entirely.2 (str "GET /a\n1")
      { method := str "GET", path := str "/a", body := some (str "1"),
        startLine := 0, endLine := 1 } (by decide)⟩

/-- C5: for every input text, the emitted requests' (method, path,
startLine) data equals the in-order list of request-line matches (hence
exactly one request per matching line, in document order with strictly
increasing `startLine`), every request satisfies `startLine ≤ endLine`, and
the `[startLine, endLine]` spans are pairwise non-overlapping. -/
theorem requests_match_request_lines (content : List Char) :
    ((parseOsdevFile content).requests.map reqHead =
      requestLineHeads 0 (splitOnChar '\n' content)) ∧
    (∀ r ∈ (parseOsdevFile content).requests, r.startLine ≤ r.endLine) ∧
    (parseOsdevFile content).requests.Pairwise
      (fun a b => a.endLine < b.startLine) :=
  ⟨(parseLoop_heads (splitOnChar '\n' content) 0).1,
    fun r hr => ((parseLoop_spans (splitOnChar '\n' content) 0).1.1 r hr).2,
    (parseLoop_spans (splitOnChar '\n' content) 0).1.2⟩

/-- C5 (witness): the characterization evaluated on a concrete two-request
document, and the span bound instantiated at its concrete first request. -/
theorem requests_match_request_lines_witness :
    (parseOsdevFile (str "GET /a\nPOST /b")).requests.map reqHead =
      [(str "GET", str "/a", 0), (str "POST", str "/b", 1)] ∧
    ({ method := str "GET", path := str "/a", startLine := 0, endLine := 0 } :
      ParsedRequest).startLine ≤
      ({ method := str "GET", path := str "/a", startLine := 0, endLine := 0 } :
        ParsedRequest).endLine := by
  constructor
  · rw [(requests_match_request_lines (str "GET /a\nPOST /b")).1]
    decide
  · exact (requests_match_request_lines (str "GET /a\nPOST /b")).2.1
      { method := str "GET", path := str "/a", startLine := 0, endLine := 0 }
      (by decide)

/-- C6: for every input text, a `ParseError` never lacks its request: each
emitted error is accompanied by an emitted request (the one starting on the
line just above the error's `line`) that carries the literal malformed body
in its `body` field. -/
theorem error_never_blocks_request (content : List Char) :
    ∀ e ∈ (parseOsdevFile content).errors,
      ∃ r ∈ (parseOsdevFile content).requests,
        e.line = r.startLine + 1 ∧ e.message = invalidJsonMsg ∧
        ∃ b, r.body = some b ∧ validateJsonBody b = false := by
  intro e he
  have hchar : (parseOsdevFile content).errors =
      (parseOsdevFile content).requests.filterMap errOf :=
    parseLoop_errors (splitOnChar '\n' content) 0 none
  rw [hchar] at he
  rcases List.mem_filterMap.mp he with ⟨r, hr, herr⟩
  refine ⟨r, hr, ?_⟩
  unfold errOf at herr
  rcases hb : r.body with _ | b
  · rw [hb] at herr; cases herr
  · rw [hb] at herr
    cases hv : validateJsonBody b with
    | false =>
      simp only [hv, Bool.false_eq_true, if_false, Option.some.injEq] at herr
      subst herr
      exact ⟨rfl, rfl, b, rfl, hv⟩
    | true => simp [hv] at herr

/-- C6 (witness): the malformed-body request of a concrete document is
emitted alongside its error. -/
theorem error_never_blocks_request_witness :
    ∃ r ∈ (parseOsdevFile (str "PUT /i\n\x7bbad\x7d")).requests,
      (⟨invalidJsonMsg, 1⟩ : ParseError).line = r.startLine + 1 ∧
      (⟨invalidJsonMsg, 1⟩ : ParseError).message = invalidJsonMsg ∧
      ∃ b, r.body = some b ∧ validateJsonBody b = false :=
  error_never_blocks_request (str "PUT /i\n\x7bbad\x7d")
    ⟨invalidJsonMsg, 1⟩ (by decide)

/-- C8 (counterexample): in `"POST /x\n1\n"` the final line is blank and
occurs after body content has begun, yet the emitted body is `"1"` — the
claim's prediction `"1\n"` (the blank line preserved in the body text) is
wrong, because `finalizeRequest` trims the joined body. -/
theorem trailing_blank_dropped_cex :
    (parseOsdevFile (str "POST /x\n1\n")).requests.map (fun r => r.body) =
      [some (str "1")] ∧
    (some (str "1") : Option (List Char)) ≠ some (str "1\n") := by decide

/-- C8 (amended): blank lines before any body content are absorbed (the
loop state is unchanged); once body content has begun every blank line is
appended to the accumulator; an accumulated blank line strictly between
non-blank content survives verbatim into the emitted body text; but
trailing accumulated blank lines are removed from the emitted body by the
final trim (finalizing with a trailing blank accumulator line is the same
as without it). -/
theorem blank_line_handling :
    (∀ l rest i cur, isBlankLine l = true →
      parseLoop (l :: rest) i (some (cur, [])) =
        parseLoop rest (i + 1) (some (cur, []))) ∧
    (∀ l rest i cur bl, isBlankLine l = true → bl ≠ [] →
      parseLoop (l :: rest) i (some (cur, bl)) =
        parseLoop rest (i + 1) (some (cur, bl ++ [l]))) ∧
    (∀ cur bl l e, isBlankLine l = true →
      finalizeRequest cur (bl ++ [l]) e = finalizeRequest cur bl e) ∧
    (∀ cur pre l post e, isBlankLine l = true →
      (joinNl pre).any (fun c => !jsWS c) = true →
      (joinNl post).any (fun c => !jsWS c) = true →
      (finalizeRequest cur (pre ++ l :: post) e).1.body =
        some (trimL (joinNl pre) ++ '\n' :: (l ++ '\n' :: trimR (joinNl post)))) := by
  have hjoin_ws : ∀ bl l, isBlankLine l = true →
      trim (joinNl (bl ++ [l])) = trim (joinNl bl) := by
    intro bl l hbl
    cases bl with
    | nil =>
      have h1 : trim l = [] := by
        simpa [isBlankLine, List.isEmpty_iff] using hbl
      simp only [List.nil_append, joinNl]
      rw [h1]
      rfl
    | cons x xs =>
      rw [joinNl_append (x :: xs) [l] (by simp) (by simp)]
      exact trim_append_ws _ ('\n' :: l) (by
        intro c hc
        rcases List.mem_cons.mp hc with rfl | hc
        · decide
        · exact blank_all_ws l hbl c hc)
  refine ⟨?_, ?_, ?_, ?_⟩
  · intro l rest i cur hbl
    have h := blank_not_comment_not_request l hbl
    simp [parseLoop, h.1, h.2, hbl]
  · intro l rest i cur bl hbl hbl2
    have h := blank_not_comment_not_request l hbl
    have hble : bl.isEmpty = false := by
      cases bl with
      | nil => cases hbl2 rfl
      | cons a as => rfl
    simp [parseLoop, h.1, h.2, hble]
  · intro cur bl l e hbl
    have hb := hjoin_ws bl l hbl
    unfold finalizeRequest
    rw [hb]
  · intro cur pre l post e hbl hpre hpost
    have hprene : pre ≠ [] := by
      intro h; subst h; simp [joinNl] at hpre
    have hpostne : post ≠ [] := by
      intro h; subst h; simp [joinNl] at hpost
    have hjoin : joinNl (pre ++ l :: post) =
        joinNl pre ++ '\n' :: (l ++ '\n' :: joinNl post) := by
      rw [joinNl_append pre (l :: post) hprene (by simp),
        joinNl_cons l post hpostne]
    have hpreL : trimL (joinNl pre) ≠ [] := by
      intro h
      rcases List.any_eq_true.mp hpre with ⟨c, hc, hcw⟩
      have := (trimL_eq_nil_iff _).mp h c hc
      rw [this] at hcw; cases hcw
    have hpostR : trimR (joinNl post) ≠ [] := by
      intro h
      rcases List.any_eq_true.mp hpost with ⟨c, hc, hcw⟩
      have := (trimR_eq_nil_iff _).mp h c hc
      rw [this] at hcw; cases hcw
    have hbody : trim (joinNl (pre ++ l :: post)) =
        trimL (joinNl pre) ++ '\n' :: (l ++ '\n' :: trimR (joinNl post)) := by
      rw [hjoin, trim, trimL_append_left _ _ hpreL]
      have hassoc : trimL (joinNl pre) ++ '\n' :: (l ++ '\n' :: joinNl post) =
          (trimL (joinNl pre) ++ '\n' :: (l ++ ['\n'])) ++ joinNl post := by
        simp
      rw [hassoc, trimR_append_right _ _ hpostR]
      simp
    have hne : trim (joinNl (pre ++ l :: post)) ≠ [] := by
      rw [hbody]
      intro h
      exact hpreL (List.append_eq_nil.mp h).1
    unfold finalizeRequest
    rw [hbody]
    have hisempty : (trimL (joinNl pre) ++ '\n' ::
        (l ++ '\n' :: trimR (joinNl post))).isEmpty = false := by
      rw [List.isEmpty_eq_false_iff_exists_mem]
      exact ⟨'\n', by simp⟩
    simp only [hisempty, Bool.false_eq_true, if_false]
    split <;> rfl

/-- C8 (witness): the four amended behaviours at concrete inputs — a
leading blank absorbed, a later blank appended, a trailing blank dropped by
finalization, and an interior blank preserved in the emitted body. -/
theorem blank_line_handling_witness :
    parseLoop [str " ", str "x"] 1 (some (⟨str "GET", str "/x", 0⟩, [])) =
      parseLoop [str "x"] 2 (some (⟨str "GET", str "/x", 0⟩, [])) ∧
    parseLoop [str ""] 2 (some (⟨str "GET", str "/x", 0⟩, [str "1"])) =
      parseLoop [] 3 (some (⟨str "GET", str "/x", 0⟩, [str "1", str ""])) ∧
    finalizeRequest ⟨str "GET", str "/x", 0⟩ [str "1", str " "] 5 =
      finalizeRequest ⟨str "GET", str "/x", 0⟩ [str "1"] 5 ∧
    (finalizeRequest ⟨str "GET", str "/x", 0⟩
        [str "\x7b", str "", str "\x7d"] 3).1.body =
      some (trimL (joinNl [str "\x7b"]) ++
        '\n' :: (str "" ++ '\n' :: trimR (joinNl [str "\x7d"]))) :=
  ⟨blank_line_handling.1 (str " ") [str "x"] 1 ⟨str "GET", str "/x", 0⟩
      (by decide),
    blank_line_handling.2.1 (str "") [] 2 ⟨str "GET", str "/x", 0⟩
      [str "1"] (by decide) (by decide),
    blank_line_handling.2.2.1 ⟨str "GET", str "/x", 0⟩ [str "1"] (str " ") 5
      (by decide),
    blank_line_handling.2.2.2 ⟨str "GET", str "/x", 0⟩ [str "\x7b"] (str "")
      [str "\x7d"] 3 (by decide) (by decide) (by decide)⟩

/-- The head of a split is the text before the first separator; the rest of
the split is the split of the text after it. -/
theorem splitOnChar_ne_nil (sep : Char) (l : List Char) :
    splitOnChar sep l ≠ [] := by
  cases l with
  | nil => simp [splitOnChar]
  | cons c rest =>
    rw [splitOnChar]
    rcases splitOnChar sep rest with _ | ⟨s, ss⟩
    · simp
    · by_cases hcs : c = sep <;> simp [hcs]

theorem splitOnChar_eq (sep : Char) (l : List Char) :
    splitOnChar sep l = l.takeWhile (fun c => c ≠ sep) ::
      (match l.dropWhile (fun c => c ≠ sep) with
        | [] => []
        | _ :: r => splitOnChar sep r) := by
  induction l with
  | nil => rfl
  | cons c l ih =>
    by_cases hc : c = sep
    · subst hc
      have ht : List.takeWhile (fun x => decide (x ≠ c)) (c :: l) = [] := by
        rw [List.takeWhile_cons]; simp
      have hd : List.dropWhile (fun x => decide (x ≠ c)) (c :: l) = c :: l := by
        rw [List.dropWhile_cons]; simp
      rw [splitOnChar]
      rcases hsp : splitOnChar c l with _ | ⟨s, ss⟩
      · exact absurd hsp (splitOnChar_ne_nil c l)
      · rw [ht, hd]
        simp [← hsp]
    · have ht : List.takeWhile (fun x => decide (x ≠ sep)) (c :: l) =
          c :: List.takeWhile (fun x => decide (x ≠ sep)) l := by
        rw [List.takeWhile_cons]; simp [hc]
      have hd : List.dropWhile (fun x => decide (x ≠ sep)) (c :: l) =
          List.dropWhile (fun x => decide (x ≠ sep)) l := by
        rw [List.dropWhile_cons]; simp [hc]
      rw [splitOnChar, ih, ht, hd]
      simp [hc]

theorem splitOnChar_headD (sep : Char) (l : List Char) :
    (splitOnChar sep l).headD [] = l.takeWhile (fun c => c ≠ sep) := by
  rw [splitOnChar_eq]
  rfl

theorem splitOnChar_second (sep : Char) (l : List Char) :
    (splitOnChar sep l)[1]? =
      (match l.dropWhile (fun c => c ≠ sep) with
        | [] => none
        | _ :: r => some (r.takeWhile (fun c => c ≠ sep))) := by
  rw [splitOnChar_eq]
  cases h : l.dropWhile (fun c => c ≠ sep) with
  | nil => rfl
  | cons a r =>
    have h0 : (splitOnChar sep r)[0]? =
        some (r.takeWhile (fun c => decide (c ≠ sep))) := by
      rw [splitOnChar_eq]
      simp
    simpa using h0

theorem key_eq_specKey (pair : List Char) :
    (splitOnChar '=' pair).headD [] = specKey pair :=
  splitOnChar_headD '=' pair

theorem value_eq_specValue (pair : List Char) :
    (splitOnChar '=' pair)[1]? = specValue pair := by
  rw [splitOnChar_second, specValue]

/-- The pair loop computes the same map whether key/value are read off the
full `split('=')` or by first/second-`=` extraction. -/
theorem setParams_eq_spec (pairs : List (List Char)) :
    ∀ m, setParams m pairs = setParamsSpec m pairs := by
  induction pairs with
  | nil => intro m; rfl
  | cons pair rest ih =>
    intro m
    simp only [setParams, setParamsSpec, key_eq_specKey, value_eq_specValue]
    by_cases hke : (specKey pair).isEmpty
    · simp only [hke, if_true]
      exact ih m
    · simp only [hke, Bool.false_eq_true, if_false]
      cases decodeURIComponentOpt (specKey pair) with
      | none => rfl
      | some dk =>
        cases hv : specValue pair with
        | none => exact ih (mapSet m dk [])
        | some v =>
          by_cases hve : v.isEmpty
          · simp only [hve, if_true]
            exact ih (mapSet m dk [])
          · simp only [hve, Bool.false_eq_true, if_false]
            cases decodeURIComponentOpt v with
            | none => rfl
            | some dv => exact ih (mapSet m dk dv)

/-- C3 (counterexample): the claim predicts
`queryParams("/x?a=b=c") = {a: "b=c"}` (everything after the first `=`,
later `=` kept in the value); the code yields `{a: "b"}`, because
`pair.split('=')` splits at every `=` and only the first two fields are
used. -/
theorem query_value_split_cex :
    getQueryParams (str "/x?a=b=c") = some [(str "a", str "b")] ∧
    (str "b" : List Char) ≠ str "b=c" := by decide

/-- C3 (amended): `getQueryParams` takes the substring after the first `?`,
splits it on `&`, and for each pair takes the key as the text before the
first `=` and the value as the text between the first and second `=` (text
after a second `=` is discarded); a pair with no `=` (or an empty value)
maps to the empty string; empty keys are skipped; key and value are
percent-decoded; iteration order is first-occurrence order and duplicate
keys take the last occurrence's value — stated as equality with the
reference loop `queryParamsSpec` written that way. -/
theorem getQueryParams_eq_spec (path : List Char) :
    getQueryParams path = queryParamsSpec path := by
  unfold getQueryParams queryParamsSpec
  by_cases h : path.contains '?'
  · simp only [h, Bool.not_true, Bool.false_eq_true, if_false]
    exact setParams_eq_spec _ []
  · rw [Bool.not_eq_true] at h
    simp only [h, Bool.not_false, if_true]

/-- The pair loop returns normally when every pair's key decodes and every
present value decodes. -/
theorem setParams_total (pairs : List (List Char)) :
    ∀ m, (∀ pair ∈ pairs,
        (decodeURIComponentOpt ((splitOnChar '=' pair).headD [])).isSome = true ∧
        ∀ v, (splitOnChar '=' pair)[1]? = some v →
          (decodeURIComponentOpt v).isSome = true) →
      (setParams m pairs).isSome = true := by
  induction pairs with
  | nil => intro m _; rfl
  | cons pair rest ih =>
    intro m hall
    have hp := hall pair (List.mem_cons_self pair rest)
    simp only [setParams]
    by_cases hke : ((splitOnChar '=' pair).headD []).isEmpty
    · simp only [hke, if_true]
      exact ih m (fun q hq => hall q (List.mem_cons_of_mem _ hq))
    · simp only [hke, Bool.false_eq_true, if_false]
      rcases hdk : decodeURIComponentOpt ((splitOnChar '=' pair).headD [])
        with _ | dk
      · rw [hdk] at hp; cases hp.1
      · cases hv : (splitOnChar '=' pair)[1]? with
        | none =>
          exact ih (mapSet m dk []) (fun q hq => hall q (List.mem_cons_of_mem _ hq))
        | some v =>
          by_cases hve : v.isEmpty
          · simp only [hve, if_true]
            exact ih (mapSet m dk [])
              (fun q hq => hall q (List.mem_cons_of_mem _ hq))
          · simp only [hve, Bool.false_eq_true, if_false]
            rcases hdv : decodeURIComponentOpt v with _ | dv
            · have := hp.2 v hv
              rw [hdv] at this; cases this
            · exact ih (mapSet m dk dv)
                (fun q hq => hall q (List.mem_cons_of_mem _ hq))

/-- C9: `getQueryParams` is not total — on `"/x?a=%zz"` the malformed
percent-escape makes `decodeURIComponent` throw (`none`), and the exception
propagates out of `getQueryParams`; but whenever every key and every
present value of the query pairs percent-decodes, `getQueryParams` returns
normally. -/
theorem queryParams_partiality :
    getQueryParams (str "/x?a=%zz") = none ∧
    ∀ path,
      (∀ pair ∈ splitOnChar '&' (queryStringOf path),
        (decodeURIComponentOpt ((splitOnChar '=' pair).headD [])).isSome = true ∧
        ∀ v, (splitOnChar '=' pair)[1]? = some v →
          (decodeURIComponentOpt v).isSome = true) →
      (getQueryParams path).isSome = true := by
  constructor
  · decide
  · intro path hall
    unfold getQueryParams
    by_cases h : path.contains '?'
    · simp only [h, Bool.not_true, Bool.false_eq_true, if_false]
      exact setParams_total _ [] hall
    · rw [Bool.not_eq_true] at h
      simp only [h, Bool.not_false, if_true, Option.isSome_some]

/-- C9 (witness): a concrete path with a well-formed escape decodes
normally. -/
theorem queryParams_partiality_witness :
    (getQueryParams (str "/ok?x=%41")).isSome = true :=
  queryParams_partiality.2 (str "/ok?x=%41") (by decide)

/-- C7 (counterexample): with `json` present but falsy (`false`) and
`prettyPrint = true` the formatter emits the raw body `"x"`, not the
2-space serialization `"false"` of the present `json`; and with `error`
present but empty the status line is the glyph line, not `# ERROR: `. -/
theorem format_structure_cex :
    formatQueryResult
        { method := str "GET", path := str "/x", startLine := 0, endLine := 0 }
        { success := true, statusCode := 200, statusMessage := str "OK",
          body := str "x", json := some (.bool false), durationMs := 5 }
        true =
      str "# GET /x\n\n# ✓ 200 OK (5ms)\n\nx" ∧
    str "# GET /x\n\n# ✓ 200 OK (5ms)\n\nx" ≠
      str "# GET /x\n\n# ✓ 200 OK (5ms)\n\n" ++ stringify2 0 (.bool false) ∧
    formatQueryResult
        { method := str "GET", path := str "/x", startLine := 0, endLine := 0 }
        { success := false, statusCode := 0, statusMessage := [],
          body := [], durationMs := 3, error := some [] }
        true =
      str "# GET /x\n\n# ✗ 0  (3ms)\n" ∧
    str "# GET /x\n\n# ✗ 0  (3ms)\n" ≠ str "# GET /x\n\n# ERROR: \n" := by
  have hfalse : stringify2 0 (Json.bool false) = str "false" := by
    simp [stringify2]
  refine ⟨by decide, ?_, by decide, by decide⟩
  rw [hfalse]
  decide

/-- C7 (amended): format produces, joined by newlines: `# METHOD path`, a
blank line, a status line (`# ERROR: <message>` when `error` is set to a
non-empty message, else glyph, status code, status message and duration), a
blank line, then the body section — the JSON serialized with 2-space
indentation when `json` is present with a truthy value and `prettyPrint` is
true, else the raw body text when it is non-empty, and no body line at all
otherwise (in which case the text ends after the blank line). -/
theorem format_structure (request : ParsedRequest) (result : QueryResult)
    (prettyPrint : Bool) :
    formatQueryResult request result prettyPrint =
      str "# " ++ request.method ++ str " " ++ request.path ++
      '\n' :: '\n' ::
      ((if optTruthy result.error then str "# ERROR: " ++ result.error.getD []
        else str "# " ++ (if result.success then str "✓" else str "✗") ++
          str " " ++ natDec result.statusCode ++ str " " ++
          result.statusMessage ++ str " (" ++ natDec result.durationMs ++
          str "ms)") ++
      (if jsonTruthy result.json && prettyPrint then
        '\n' :: '\n' :: stringify2 0 (result.json.getD .null)
      else if !result.body.isEmpty then '\n' :: '\n' :: result.body
      else ['\n'])) := by
  by_cases hj : jsonTruthy result.json && prettyPrint
  · simp only [formatQueryResult, headerLineOf, statusLineOf, hj, if_true]
    simp [joinNl]
  · simp only [formatQueryResult, headerLineOf, statusLineOf, hj,
      Bool.false_eq_true, if_false]
    by_cases hb : result.body.isEmpty
    · simp only [hb, Bool.not_true, Bool.false_eq_true, if_false]
      simp [joinNl]
    · rw [Bool.not_eq_true] at hb
      simp only [hb, Bool.not_false, if_true]
      simp [joinNl]

/-- C10: a present-but-falsy `json` value (`false`, `0`, `null`, `""`) is
treated exactly as an absent one: the formatted text is unchanged when the
`json` field is dropped; even with `prettyPrint = true` the raw body text
is emitted instead of the 2-space serialization when the body is
non-empty; and with an empty body (and no error) no body section is
emitted at all. -/
theorem falsy_json_treated_absent (request : ParsedRequest)
    (result : QueryResult) (prettyPrint : Bool) (j : Json)
    (hj : result.json = some j) (hfalsy : jsTruthy j = false) :
    formatQueryResult request result prettyPrint =
      formatQueryResult request { result with json := none } prettyPrint ∧
    (result.body.isEmpty = false →
      formatQueryResult request result true =
        joinNl [headerLineOf request, [], statusLineOf result, [],
          result.body]) ∧
    (result.body = [] → result.error = none →
      formatQueryResult request result prettyPrint =
        joinNl [headerLineOf request, [], statusLineOf result, []]) := by
  have hjt : jsonTruthy result.json = false := by
    rw [hj]; exact hfalsy
  refine ⟨?_, ?_, ?_⟩
  · have hs : statusLineOf { result with json := none } =
        statusLineOf result := rfl
    have hj2 : jsonTruthy ({ result with json := none } : QueryResult).json =
        false := rfl
    simp [formatQueryResult, hjt, hj2, hs]
  · intro hb
    simp [formatQueryResult, hjt, hb]
  · intro hb _
    simp [formatQueryResult, hjt, hb]

/-- C10 (witness): a concrete result with `json = some 0`: dropping the
field does not change the output, the raw body wins over pretty-printing,
and the empty-body variant has no body section. -/
theorem falsy_json_treated_absent_witness :
    (formatQueryResult
        { method := str "GET", path := str "/x", startLine := 0, endLine := 0 }
        { success := true, statusCode := 200, statusMessage := str "OK",
          body := str "raw", json := some (.num 0), durationMs := 2 }
        true =
      formatQueryResult
        { method := str "GET", path := str "/x", startLine := 0, endLine := 0 }
        { success := true, statusCode := 200, statusMessage := str "OK",
          body := str "raw", json := none, durationMs := 2 }
        true) ∧
    (formatQueryResult
        { method := str "GET", path := str "/x", startLine := 0, endLine := 0 }
        { success := true, statusCode := 200, statusMessage := str "OK",
          body := [], json := some (.num 0), durationMs := 2 }
        true =
      joinNl [headerLineOf
          { method := str "GET", path := str "/x", startLine := 0,
            endLine := 0 }, [],
        statusLineOf
          { success := true, statusCode := 200, statusMessage := str "OK",
            body := [], json := some (.num 0), durationMs := 2 }, []]) :=
  ⟨(falsy_json_treated_absent
      { method := str "GET", path := str "/x", startLine := 0, endLine := 0 }
      { success := true, statusCode := 200, statusMessage := str "OK",
        body := str "raw", json := some (.num 0), durationMs := 2 }
      true (.num 0) rfl (by decide)).1,
    (falsy_json_treated_absent
      { method := str "GET", path := str "/x", startLine := 0, endLine := 0 }
      { success := true, statusCode := 200, statusMessage := str "OK",
        body := [], json := some (.num 0), durationMs := 2 }
      true (.num 0) rfl (by decide)).2.2 rfl rfl⟩

/-- Exhaustive outcomes of the executor's try block: a thrown exception, or
a settled result from exactly one of the three transport events. -/
theorem executeRequestAux_cases (request : ParsedRequest)
    (options : ExecuteOptions) (env : ExecEnv) :
    (∃ e, executeRequestAux request options env = .error e) ∨
    (∃ sc sm body json headers,
      env.transport = .response sc sm body json headers ∧
      executeRequestAux request options env = .ok
        { success := decide (200 ≤ sc.getD 0 ∧ sc.getD 0 < 300),
          statusCode := sc.getD 0, statusMessage := sm.getD [], body := body,
          json := json, headers := headers, durationMs := env.elapsed }) ∨
    (∃ m, env.transport = .transportError m ∧
      executeRequestAux request options env =
        .ok (errorResult env.elapsed m)) ∨
    (env.transport = .timedOut ∧
      executeRequestAux request options env = .ok (errorResult env.elapsed
        (str "Request timed out after " ++
          natDec (options.timeout.getD DEFAULT_TIMEOUT) ++ str "ms"))) := by
  rcases hu : env.urlParse with e | u
  · exact Or.inl ⟨e, by unfold executeRequestAux; rw [hu]; rfl⟩
  rcases ha : getAuthHeaders options env.signResult with e | hdrs
  · exact Or.inl ⟨e, by unfold executeRequestAux; rw [hu, ha]; rfl⟩
  by_cases hp : u.protocol = str "https:"
  · rcases hc : createHttpsAgent options.connection env.caRead with e | ag
    · refine Or.inl ⟨e, ?_⟩
      unfold executeRequestAux
      rw [hu, ha]
      simp [bind, Except.bind, Except.map, hp, hc]
    · rcases ht : env.transport with ⟨sc, sm, body, json, headers⟩ | ⟨m⟩ | _
      · refine Or.inr (Or.inl ⟨sc, sm, body, json, headers, rfl, ?_⟩)
        unfold executeRequestAux
        rw [hu, ha]
        simp [bind, Except.bind, Except.map, hp, hc, ht]
      · refine Or.inr (Or.inr (Or.inl ⟨m, rfl, ?_⟩))
        unfold executeRequestAux
        rw [hu, ha]
        simp [bind, Except.bind, Except.map, hp, hc, ht]
      · refine Or.inr (Or.inr (Or.inr ⟨rfl, ?_⟩))
        unfold executeRequestAux
        rw [hu, ha]
        simp [bind, Except.bind, Except.map, hp, hc, ht]
  · rcases ht : env.transport with ⟨sc, sm, body, json, headers⟩ | ⟨m⟩ | _
    · refine Or.inr (Or.inl ⟨sc, sm, body, json, headers, rfl, ?_⟩)
      unfold executeRequestAux
      rw [hu, ha]
      simp [bind, Except.bind, Except.map, hp, ht]
    · refine Or.inr (Or.inr (Or.inl ⟨m, rfl, ?_⟩))
      unfold executeRequestAux
      rw [hu, ha]
      simp [bind, Except.bind, Except.map, hp, ht]
    · refine Or.inr (Or.inr (Or.inr ⟨rfl, ?_⟩))
      unfold executeRequestAux
      rw [hu, ha]
      simp [bind, Except.bind, Except.map, hp, ht]

/-- C1: `executeRequest` always returns a `QueryResult` and never lets a
failure escape: any exception thrown in the try block is captured as
`errorResult`, a result carrying an error always has `success = false` and
`statusCode = 0`, and each failure mode — auth-header resolution failure,
an unreadable CA file on an `https:` connection, a transport error, a
timeout — yields a result with `error` set, `success = false` and
`statusCode = 0`. -/
theorem executeRequest_never_throws (request : ParsedRequest)
    (options : ExecuteOptions) (env : ExecEnv) :
    (∀ msg, (executeRequest request options env).error = some msg →
      (executeRequest request options env).success = false ∧
      (executeRequest request options env).statusCode = 0) ∧
    (∀ e, executeRequestAux request options env = .error e →
      executeRequest request options env = errorResult env.elapsed e) ∧
    ((getAuthHeaders options env.signResult).isOk = false →
      (executeRequest request options env).error.isSome = true ∧
      (executeRequest request options env).success = false ∧
      (executeRequest request options env).statusCode = 0) ∧
    (∀ u e, env.urlParse = .ok u → u.protocol = str "https:" →
      optTruthy options.connection.caCertPath = true →
      env.caRead = .error e →
      (executeRequest request options env).error.isSome = true ∧
      (executeRequest request options env).success = false ∧
      (executeRequest request options env).statusCode = 0) ∧
    (∀ m, env.transport = .transportError m →
      (executeRequest request options env).error.isSome = true ∧
      (executeRequest request options env).success = false ∧
      (executeRequest request options env).statusCode = 0) ∧
    (env.transport = .timedOut →
      (executeRequest request options env).error.isSome = true ∧
      (executeRequest request options env).success = false ∧
      (executeRequest request options env).statusCode = 0) := by
  have hcap : ∀ e, executeRequestAux request options env = .error e →
      executeRequest request options env = errorResult env.elapsed e := by
    intro e he
    unfold executeRequest
    rw [he]
  have hok : ∀ r, executeRequestAux request options env = .ok r →
      executeRequest request options env = r := by
    intro r hr
    unfold executeRequest
    rw [hr]
  have htriple : ∀ t m, executeRequest request options env = errorResult t m →
      (executeRequest request options env).error.isSome = true ∧
      (executeRequest request options env).success = false ∧
      (executeRequest request options env).statusCode = 0 := by
    intro t m hr
    rw [hr]
    exact ⟨rfl, rfl, rfl⟩
  refine ⟨?_, hcap, ?_, ?_, ?_, ?_⟩
  · intro msg hmsg
    rcases executeRequestAux_cases request options env with
      ⟨e, haux⟩ | ⟨sc, sm, body, json, headers, ht, haux⟩ |
      ⟨m, ht, haux⟩ | ⟨ht, haux⟩
    · rw [hcap e haux]
      exact ⟨rfl, rfl⟩
    · rw [hok _ haux] at hmsg
      simp at hmsg
    · rw [hok _ haux]
      exact ⟨rfl, rfl⟩
    · rw [hok _ haux]
      exact ⟨rfl, rfl⟩
  · intro hisok
    rcases ha : getAuthHeaders options env.signResult with e | hdrs
    · rcases hu : env.urlParse with e2 | u
      · exact htriple env.elapsed e2
          (hcap e2 (by unfold executeRequestAux; rw [hu]; rfl))
      · exact htriple env.elapsed e
          (hcap e (by unfold executeRequestAux; rw [hu, ha]; rfl))
    · rw [ha] at hisok
      cases hisok
  · intro u e hu hp hca hread
    have hc : createHttpsAgent options.connection env.caRead =
        .error (str "Failed to read CA certificate: " ++ e) := by
      unfold createHttpsAgent
      rw [if_pos hca, hread]
    rcases ha : getAuthHeaders options env.signResult with e2 | hdrs
    · exact htriple env.elapsed e2
        (hcap e2 (by unfold executeRequestAux; rw [hu, ha]; rfl))
    · refine htriple env.elapsed (str "Failed to read CA certificate: " ++ e)
        (hcap _ ?_)
      unfold executeRequestAux
      rw [hu, ha]
      simp [bind, Except.bind, Except.map, hp, hc]
  · intro m ht
    rcases executeRequestAux_cases request options env with
      ⟨e, haux⟩ | ⟨sc, sm, body, json, headers, ht2, haux⟩ |
      ⟨m2, ht2, haux⟩ | ⟨ht2, haux⟩
    · exact htriple env.elapsed e (hcap e haux)
    · rw [ht] at ht2; cases ht2
    · exact htriple env.elapsed m2 (hok _ haux)
    · rw [ht] at ht2; cases ht2
  · intro ht
    rcases executeRequestAux_cases request options env with
      ⟨e, haux⟩ | ⟨sc, sm, body, json, headers, ht2, haux⟩ |
      ⟨m2, ht2, haux⟩ | ⟨ht2, haux⟩
    · exact htriple env.elapsed e (hcap e haux)
    · rw [ht] at ht2; cases ht2
    · rw [ht] at ht2; cases ht2
    · exact htriple env.elapsed _ (hok _ haux)

/-- C1 (witness): a concrete transport error is captured as an error result
with `success = false` and `statusCode = 0`. -/
theorem executeRequest_never_throws_witness :
    (executeRequest
        { method := str "GET", path := str "/", startLine := 0, endLine := 0 }
        { connection :=
            { id := str "1", name := str "c", url := str "http://h",
              authType := .basic, username := some (str "u"),
              sslVerify := true },
          password := some (str "p") }
        { urlParse := .ok
            { protocol := str "http:", hostname := str "h",
              pathname := str "/", search := [] },
          transport := .transportError (str "Connection refused"),
          elapsed := 7 }).error.isSome = true ∧
    (executeRequest
        { method := str "GET", path := str "/", startLine := 0, endLine := 0 }
        { connection :=
            { id := str "1", name := str "c", url := str "http://h",
              authType := .basic, username := some (str "u"),
              sslVerify := true },
          password := some (str "p") }
        { urlParse := .ok
            { protocol := str "http:", hostname := str "h",
              pathname := str "/", search := [] },
          transport := .transportError (str "Connection refused"),
          elapsed := 7 }).success = false ∧
    (executeRequest
        { method := str "GET", path := str "/", startLine := 0, endLine := 0 }
        { connection :=
            { id := str "1", name := str "c", url := str "http://h",
              authType := .basic, username := some (str "u"),
              sslVerify := true },
          password := some (str "p") }
        { urlParse := .ok
            { protocol := str "http:", hostname := str "h",
              pathname := str "/", search := [] },
          transport := .transportError (str "Connection refused"),
          elapsed := 7 }).statusCode = 0 :=
  (executeRequest_never_throws
      { method := str "GET", path := str "/", startLine := 0, endLine := 0 }
      { connection :=
          { id := str "1", name := str "c", url := str "http://h",
            authType := .basic, username := some (str "u"),
            sslVerify := true },
        password := some (str "p") }
      { urlParse := .ok
          { protocol := str "http:", hostname := str "h",
            pathname := str "/", search := [] },
        transport := .transportError (str "Connection refused"),
        elapsed := 7 }).2.2.2.2.1 (str "Connection refused") rfl

end OsDev
